import Mathlib

/-!
Verification development for the paper-trading core of the investoryX
backend (`src/trading_engine/services/`).  Monetary amounts, prices and
share quantities are `decimal.Decimal` in the source; they are embedded
as exact rationals (`Rat`).  Python strings are embedded as `String`
with explicit, executable models of `str.strip`, `str.upper`,
`str.lower` and lexicographic comparison, because the source compares
and normalises ticker symbols and action names.  Database access
(`Session`) is abstracted into explicit inputs: the batch of pending
signals, a price oracle `String → Option Rat` (the latest stored close
per symbol), and the batch-local cash/holdings maps of the execution
context.
-/

namespace InvestoryX

/-! ## String helpers (models of Python `str` methods) -/

/-- Model of `str.upper` restricted to ASCII letters (tickers and action
names in the source are ASCII). -/
def charUpper (c : Char) : Char :=
  if 'a' ≤ c ∧ c ≤ 'z' then Char.ofNat (c.toNat - 32) else c

/-- Model of `str.lower` restricted to ASCII letters. -/
def charLower (c : Char) : Char :=
  if 'A' ≤ c ∧ c ≤ 'Z' then Char.ofNat (c.toNat + 32) else c

def strUpper (s : String) : String := ⟨s.data.map charUpper⟩

def strLower (s : String) : String := ⟨s.data.map charLower⟩

/-- Whitespace characters removed by Python `str.strip()`. -/
def isPySpace (c : Char) : Bool :=
  c = ' ' ∨ c = '\t' ∨ c = '\n' ∨ c = '\r'

/-- Model of Python `str.strip()`. -/
def strStrip (s : String) : String :=
  ⟨((s.data.dropWhile isPySpace).reverse.dropWhile isPySpace).reverse⟩

/-- Lexicographic comparison of code-point lists (Python `<=` on `str`). -/
def charListLe : List Char → List Char → Bool
  | [], _ => true
  | _ :: _, [] => false
  | a :: as, b :: bs =>
    if a < b then true else if b < a then false else charListLe as bs

def strLe (a b : String) : Bool := charListLe a.data b.data

/-! ## `services/actions.py` -/

/-- Enum `SignalAction` from `actions.py`. -/
inductive SignalAction
  | buy
  | sell
  | hold
deriving DecidableEq

/-- The `.value` of each `SignalAction` member. -/
def SignalAction.value : SignalAction → String
  | .buy => "buy"
  | .sell => "sell"
  | .hold => "hold"

/-- Model of the enum constructor `SignalAction(x)`: the member whose
value equals `x`, if any. -/
def action_of_string (x : String) : Option SignalAction :=
  if x = "buy" then some .buy
  else if x = "sell" then some .sell
  else if x = "hold" then some .hold
  else none

/-! ## `services/execution.py` — data model -/

/-- Row of the `simulator_signals` table as read by the execution
service (fields the per-signal pipeline consumes). -/
structure SimulatorSignal where
  signal_id : Nat
  simulator_id : Nat
  ticker : String
  action : String
  quantity : Rat
  strategy_name : String

/-- The terminal mutation `_mark_failed` / `_mark_skipped` /
`_mark_executed` applies to a signal row: new status, error text and
`executed_at` stamp. -/
structure SignalUpdate where
  status : String
  execution_error : Option String
  executed_at : Nat
deriving DecidableEq

/-- Row of the `simulator_trades` table built by `_to_trade`. -/
structure SimulatorTrade where
  simulator_id : Nat
  ticker : String
  side : String
  price : Rat
  shares : Rat
  fee : Rat
  executed_at : Nat

/-- `TradeIntent` dataclass. -/
structure TradeIntent where
  signal_id : Nat
  simulator_id : Nat
  symbol : String
  side : SignalAction
  quantity : Rat
  reference_price : Rat
  strategy_name : String

/-- `ExecutionContext` dataclass: the batch-local state threaded through
`_process_signal`.  The two dicts are embedded as total maps with the
default value `Decimal("0")` that the source supplies via `.get(_, 0)`. -/
structure ExecutionContext where
  now : Nat
  fee_per_trade : Rat
  slippage_bps : Rat
  cash_by_sim : Nat → Rat
  holdings_by_sim : Nat → String → Rat

/-- Pointwise update of a cash map (dict item assignment). -/
def updCash (f : Nat → Rat) (k : Nat) (v : Rat) : Nat → Rat :=
  fun j => if j = k then v else f j

/-- Pointwise update of a holdings map at one simulator and symbol
(dict `setdefault` followed by item assignment). -/
def updHolding (f : Nat → String → Rat) (k : Nat) (sym : String) (v : Rat) :
    Nat → String → Rat :=
  fun j s => if j = k ∧ s = sym then v else f j s

/-! ## `services/execution.py` — per-signal pipeline -/

/-- `PaperTradeExecutionService._validate_signal`. -/
def validate_signal (s : SimulatorSignal) : Option String :=
  if strStrip s.ticker = "" then some "signal missing ticker"
  else if ¬ (s.action = "buy" ∨ s.action = "sell" ∨ s.action = "hold") then
    some ("unsupported action=" ++ s.action)
  else if s.quantity ≤ 0 ∧ s.action ≠ "hold" then
    some "signal quantity must be positive"
  else none

/-- `PaperTradeExecutionService._build_trade_intent`.  After
`_validate_signal` the action string is one of the enum values, so the
Python enum construction `SignalAction(signal.action.lower())` cannot
raise; the `getD` default is unreachable under that guard. -/
def build_trade_intent (s : SimulatorSignal) (price : Rat) : TradeIntent :=
  { signal_id := s.signal_id
    simulator_id := s.simulator_id
    symbol := strUpper (strStrip s.ticker)
    side := (action_of_string (strLower s.action)).getD .hold
    quantity := s.quantity
    reference_price := price
    strategy_name := s.strategy_name }

/-- `PaperTradeExecutionService._size_executable_quantity`. -/
def size_executable_quantity (intent : TradeIntent) (cash held_shares fee : Rat) :
    Option String :=
  if intent.quantity ≤ 0 then some "non-positive trade quantity"
  else
    match intent.side with
    | .buy =>
      if intent.reference_price ≤ 0 then some "invalid price"
      else
        let max_affordable :=
          if cash > fee then (cash - fee) / intent.reference_price else (0 : Rat)
        if intent.quantity > max_affordable then
          some "requested quantity exceeds affordable quantity"
        else none
    | .sell =>
      if intent.quantity > held_shares then
        some "requested quantity exceeds held shares"
      else none
    | .hold => none

/-- `PaperTradeExecutionService._apply_risk_rules`. -/
def apply_risk_rules (intent : TradeIntent) (cash held_shares fee : Rat) :
    Option String :=
  match intent.side with
  | .buy =>
    if intent.quantity * intent.reference_price + fee > cash then
      some "insufficient cash"
    else none
  | .sell =>
    if intent.quantity > held_shares then some "insufficient shares" else none
  | .hold => some "non-tradable action"

/-- `PaperTradeExecutionService._estimate_fill_price`. -/
def estimate_fill_price (side : SignalAction) (market_price slippage_bps : Rat) :
    Rat :=
  if slippage_bps ≤ 0 then market_price
  else
    let bps := slippage_bps / 10000
    match side with
    | .buy => market_price * (1 + bps)
    | _ => market_price * (1 - bps)

/-- `PaperTradeExecutionService._to_trade`. -/
def to_trade (simulator_id : Nat) (symbol : String) (side : SignalAction)
    (quantity fill_price fee : Rat) (executed_at : Nat) : SimulatorTrade :=
  { simulator_id := simulator_id
    ticker := symbol
    side := side.value
    price := fill_price
    shares := quantity
    fee := fee
    executed_at := executed_at }

/-- Batch-local cash/holdings mutation performed at the end of
`_process_signal` once a trade is created. -/
def apply_trade_effect (ctx : ExecutionContext) (sim_id : Nat) (symbol : String)
    (side : SignalAction) (quantity trade_value fee current_cash current_holding : Rat) :
    ExecutionContext :=
  match side with
  | .buy =>
    { ctx with
      cash_by_sim := updCash ctx.cash_by_sim sim_id (current_cash - trade_value - fee)
      holdings_by_sim :=
        updHolding ctx.holdings_by_sim sim_id symbol (current_holding + quantity) }
  | .sell =>
    { ctx with
      cash_by_sim := updCash ctx.cash_by_sim sim_id (current_cash + trade_value - fee)
      holdings_by_sim :=
        updHolding ctx.holdings_by_sim sim_id symbol (current_holding - quantity) }
  | .hold => ctx

/-- `PaperTradeExecutionService._process_signal`, with the database
read `_get_latest_close` abstracted as the oracle `latest_close`.
Returns the terminal signal update, the created trade row (if any) and
the mutated execution context.  The local variables of the source
(`symbol`, `current_cash`, `current_holding`, `intent`, `fill_price`,
`trade_value`) are inlined. -/
def process_signal (latest_close : String → Option Rat)
    (s : SimulatorSignal) (ctx : ExecutionContext) :
    SignalUpdate × Option SimulatorTrade × ExecutionContext :=
  match validate_signal s with
  | some err => (⟨"failed", some err, ctx.now⟩, none, ctx)
  | none =>
    if s.action = "hold" then
      (⟨"skipped", some "hold signal is not executable", ctx.now⟩, none, ctx)
    else
      match latest_close (strUpper (strStrip s.ticker)) with
      | none =>
        (⟨"failed", some ("no latest price for ticker=" ++ strUpper (strStrip s.ticker)),
            ctx.now⟩, none, ctx)
      | some price =>
        match size_executable_quantity (build_trade_intent s price)
            (ctx.cash_by_sim s.simulator_id)
            (ctx.holdings_by_sim s.simulator_id (strUpper (strStrip s.ticker)))
            ctx.fee_per_trade with
        | some err => (⟨"failed", some err, ctx.now⟩, none, ctx)
        | none =>
          match apply_risk_rules (build_trade_intent s price)
              (ctx.cash_by_sim s.simulator_id)
              (ctx.holdings_by_sim s.simulator_id (strUpper (strStrip s.ticker)))
              ctx.fee_per_trade with
          | some err => (⟨"failed", some err, ctx.now⟩, none, ctx)
          | none =>
            (⟨"executed", none, ctx.now⟩,
              some (to_trade s.simulator_id (strUpper (strStrip s.ticker))
                (build_trade_intent s price).side (build_trade_intent s price).quantity
                (estimate_fill_price (build_trade_intent s price).side
                  (build_trade_intent s price).reference_price ctx.slippage_bps)
                ctx.fee_per_trade ctx.now),
              apply_trade_effect ctx s.simulator_id (strUpper (strStrip s.ticker))
                (build_trade_intent s price).side (build_trade_intent s price).quantity
                (estimate_fill_price (build_trade_intent s price).side
                    (build_trade_intent s price).reference_price ctx.slippage_bps *
                  (build_trade_intent s price).quantity)
                ctx.fee_per_trade (ctx.cash_by_sim s.simulator_id)
                (ctx.holdings_by_sim s.simulator_id (strUpper (strStrip s.ticker))))

/-- One iteration of the batch loop of `execute_pending_signals`:
process the next pending signal against the threaded context and record
its terminal update and created trade. -/
def execute_step (latest_close : String → Option Rat)
    (acc : ExecutionContext × List (SignalUpdate × Option SimulatorTrade))
    (s : SimulatorSignal) :
    ExecutionContext × List (SignalUpdate × Option SimulatorTrade) :=
  ((process_signal latest_close s acc.1).2.2,
    acc.2 ++ [((process_signal latest_close s acc.1).1,
      (process_signal latest_close s acc.1).2.1)])

/-- The per-batch loop of
`PaperTradeExecutionService.execute_pending_signals`: process the
pending signals in order, threading the batch-local context and
collecting the terminal updates and created trades. -/
def execute_batch (latest_close : String → Option Rat)
    (pending : List SimulatorSignal) (ctx : ExecutionContext) :
    ExecutionContext × List (SignalUpdate × Option SimulatorTrade) :=
  pending.foldl (execute_step latest_close) (ctx, [])

/-! ## `services/portfolio.py` — data model and trade replay -/

/-- `Position` dataclass: holding for a single symbol. -/
structure Position where
  symbol : String
  quantity : Rat
  average_cost : Rat
deriving DecidableEq

/-- `PortfolioSnapshot` dataclass: point-in-time view of a portfolio.
The `positions` dict is embedded as an insertion-ordered association
list with unique keys, like a Python dict. -/
structure PortfolioSnapshot where
  user_id : Nat
  cash : Rat
  positions : List (String × Position)
  as_of : Nat
  simulator_id : Option Nat

/-- `ExecutedTrade` dataclass: ledger trade used to rebuild canonical
portfolio state. -/
structure ExecutedTrade where
  trade_id : Nat
  simulator_id : Nat
  symbol : String
  side : SignalAction
  quantity : Rat
  price : Rat
  fee : Rat
  executed_at : Nat

/-- Python `dict.get` on an association list (first matching key). -/
def lookupPos : List (String × Position) → String → Option Position
  | [], _ => none
  | (k, v) :: rest, sym => if k = sym then some v else lookupPos rest sym

/-- Python `dict[key] = value`: replace in place, else append. -/
def dictSet : List (String × Position) → String → Position → List (String × Position)
  | [], sym, v => [(sym, v)]
  | (k, w) :: rest, sym, v =>
    if k = sym then (k, v) :: rest else (k, w) :: dictSet rest sym v

/-- Python `dict.pop(key, None)`: drop the entry with the given key. -/
def dictPop : List (String × Position) → String → List (String × Position)
  | [], _ => []
  | (k, w) :: rest, sym => if k = sym then rest else (k, w) :: dictPop rest sym

/-- The default `positions.get(symbol, Position(symbol, 0, 0))` used by
`_replay_trades`. -/
def current_position (positions : List (String × Position)) (sym : String) : Position :=
  (lookupPos positions sym).getD ⟨sym, 0, 0⟩

/-- `PortfolioService._validate_trade`; the `ValueError` it raises is
embedded as the returned error message. -/
def validate_trade (t : ExecutedTrade) : Option String :=
  if ¬ (t.side = SignalAction.buy ∨ t.side = SignalAction.sell) then
    some ("trade_id=" ++ toString t.trade_id ++ " has unsupported side=" ++ t.side.value)
  else if t.quantity ≤ 0 then
    some ("trade_id=" ++ toString t.trade_id ++ " has non-positive quantity")
  else if t.price ≤ 0 then
    some ("trade_id=" ++ toString t.trade_id ++ " has non-positive price")
  else if t.fee < 0 then
    some ("trade_id=" ++ toString t.trade_id ++ " has negative fee")
  else none

/-- The oversell `ValueError` message raised by `_replay_trades`. -/
def oversell_msg (t : ExecutedTrade) (held : Rat) : String :=
  "trade_id=" ++ toString t.trade_id ++ " sells " ++ toString t.quantity ++
    " but holds only " ++ toString held ++ " for symbol=" ++ t.symbol

/-- The loop of `PortfolioService._replay_trades` over the ordered
ledger, threading cash and the positions dict; a raised `ValueError`
aborts the replay as an `Except.error`. -/
def replay_go : Rat → List (String × Position) → List ExecutedTrade →
    Except String (Rat × List (String × Position))
  | cash, positions, [] => .ok (cash, positions)
  | cash, positions, t :: rest =>
    match validate_trade t with
    | some err => .error err
    | none =>
      if t.side = SignalAction.buy then
        replay_go (cash - (t.price * t.quantity + t.fee))
          (dictSet positions t.symbol
            ⟨t.symbol,
              (current_position positions t.symbol).quantity + t.quantity,
              ((current_position positions t.symbol).quantity *
                  (current_position positions t.symbol).average_cost +
                t.price * t.quantity + t.fee) /
                ((current_position positions t.symbol).quantity + t.quantity)⟩)
          rest
      else if t.quantity > (current_position positions t.symbol).quantity then
        .error (oversell_msg t (current_position positions t.symbol).quantity)
      else if (current_position positions t.symbol).quantity - t.quantity = 0 then
        replay_go (cash + (t.price * t.quantity - t.fee)) (dictPop positions t.symbol) rest
      else
        replay_go (cash + (t.price * t.quantity - t.fee))
          (dictSet positions t.symbol
            ⟨t.symbol, (current_position positions t.symbol).quantity - t.quantity,
              (current_position positions t.symbol).average_cost⟩)
          rest

/-- `PortfolioService._replay_trades`: replay the full ledger from
starting cash with an empty positions dict. -/
def replay_trades (starting_cash : Rat) (trades : List ExecutedTrade) :
    Except String (Rat × List (String × Position)) :=
  replay_go starting_cash [] trades

/-- Conversion of a stored `simulator_trades` row into an
`ExecutedTrade`, as performed by
`SqlPortfolioRepository.list_executed_trades` (blank symbols are
dropped; the side string is stripped, lowercased and parsed into the
enum, which cannot fail for rows written by `_to_trade`). -/
def executed_trade_of_row (trade_id : Nat) (row : SimulatorTrade) : Option ExecutedTrade :=
  if strUpper (strStrip row.ticker) = "" then none
  else
    some
      { trade_id := trade_id
        simulator_id := row.simulator_id
        symbol := strUpper (strStrip row.ticker)
        side := (action_of_string (strLower (strStrip row.side))).getD .hold
        quantity := row.shares
        price := row.price
        fee := row.fee
        executed_at := row.executed_at }

/-! ## Supporting lemmas on the execution pipeline -/

/-- The batch-local mutation touches only the entries of the trading
simulator: every other simulator's cash and holdings are unchanged. -/
theorem apply_trade_effect_other_sim (ctx : ExecutionContext) (sim_id : Nat)
    (symbol : String) (side : SignalAction)
    (q tv fee cc ch : Rat) (t : Nat) (ht : t ≠ sim_id) :
    (apply_trade_effect ctx sim_id symbol side q tv fee cc ch).cash_by_sim t =
      ctx.cash_by_sim t ∧
    ∀ sym, (apply_trade_effect ctx sim_id symbol side q tv fee cc ch).holdings_by_sim t sym =
      ctx.holdings_by_sim t sym := by
  cases side <;>
    simp [apply_trade_effect, updCash, updHolding, ht]

/-- `apply_trade_effect` only rewrites the two batch-local maps; the
scalar fields of the context are untouched. -/
theorem apply_trade_effect_fields (ctx : ExecutionContext) (sim_id : Nat)
    (symbol : String) (side : SignalAction) (q tv fee cc ch : Rat) :
    (apply_trade_effect ctx sim_id symbol side q tv fee cc ch).fee_per_trade =
      ctx.fee_per_trade ∧
    (apply_trade_effect ctx sim_id symbol side q tv fee cc ch).slippage_bps =
      ctx.slippage_bps ∧
    (apply_trade_effect ctx sim_id symbol side q tv fee cc ch).now = ctx.now := by
  cases side <;> simp [apply_trade_effect]

/-- The context returned by `_process_signal` is either the input
context (signal failed or skipped) or the input context with the trade
effect applied at the signal's own simulator id. -/
theorem process_signal_ctx_cases (f : String → Option Rat)
    (s : SimulatorSignal) (ctx : ExecutionContext) :
    (process_signal f s ctx).2.2 = ctx ∨
    ∃ symbol side q tv fee cc ch,
      (process_signal f s ctx).2.2 =
        apply_trade_effect ctx s.simulator_id symbol side q tv fee cc ch := by
  unfold process_signal
  rcases validate_signal s with _ | err
  · by_cases ha : s.action = "hold"
    · simp [ha]
    · simp only [if_neg ha]
      rcases f (strUpper (strStrip s.ticker)) with _ | price
      · simp
      · simp only []
        rcases size_executable_quantity (build_trade_intent s price)
            (ctx.cash_by_sim s.simulator_id)
            (ctx.holdings_by_sim s.simulator_id (strUpper (strStrip s.ticker)))
            ctx.fee_per_trade with _ | e1
        · rcases apply_risk_rules (build_trade_intent s price)
              (ctx.cash_by_sim s.simulator_id)
              (ctx.holdings_by_sim s.simulator_id (strUpper (strStrip s.ticker)))
              ctx.fee_per_trade with _ | e2
          · right
            exact ⟨_, _, _, _, _, _, _, rfl⟩
          · simp
        · simp
  · simp

/-- Characterization of the fully-executed buy path of
`_process_signal`: a buy signal that passes validation, pricing, sizing
and risk checks is marked executed, produces the trade row, and applies
the buy effect to the context. -/
theorem process_signal_buy_executed (f : String → Option Rat) (s : SimulatorSignal)
    (ctx : ExecutionContext) (price : Rat)
    (ha : s.action = "buy") (ht : strStrip s.ticker ≠ "")
    (hp : f (strUpper (strStrip s.ticker)) = some price)
    (hq : 0 < s.quantity) (hpp : 0 < price)
    (hcf : ctx.fee_per_trade < ctx.cash_by_sim s.simulator_id)
    (haff : s.quantity ≤ (ctx.cash_by_sim s.simulator_id - ctx.fee_per_trade) / price) :
    process_signal f s ctx =
      (⟨"executed", none, ctx.now⟩,
        some (to_trade s.simulator_id (strUpper (strStrip s.ticker)) .buy s.quantity
          (estimate_fill_price .buy price ctx.slippage_bps) ctx.fee_per_trade ctx.now),
        apply_trade_effect ctx s.simulator_id (strUpper (strStrip s.ticker)) .buy
          s.quantity (estimate_fill_price .buy price ctx.slippage_bps * s.quantity)
          ctx.fee_per_trade (ctx.cash_by_sim s.simulator_id)
          (ctx.holdings_by_sim s.simulator_id (strUpper (strStrip s.ticker)))) := by
  have hv : validate_signal s = none := by
    unfold validate_signal
    rw [if_neg ht, ha]
    simp [not_le.mpr hq]
  have hside : (build_trade_intent s price).side = .buy := by
    unfold build_trade_intent
    rw [ha]
    rfl
  have hqty : (build_trade_intent s price).quantity = s.quantity := rfl
  have href : (build_trade_intent s price).reference_price = price := rfl
  have hsize : size_executable_quantity (build_trade_intent s price)
      (ctx.cash_by_sim s.simulator_id)
      (ctx.holdings_by_sim s.simulator_id (strUpper (strStrip s.ticker)))
      ctx.fee_per_trade = none := by
    unfold size_executable_quantity
    rw [hqty, href]
    simp only [hside, if_neg (not_le.mpr hq), if_neg (not_le.mpr hpp)]
    rw [if_pos hcf, if_neg (not_lt.mpr haff)]
  have hrisk_le : s.quantity * price + ctx.fee_per_trade ≤
      ctx.cash_by_sim s.simulator_id := by
    have hmul : s.quantity * price ≤ ctx.cash_by_sim s.simulator_id - ctx.fee_per_trade :=
      (le_div_iff₀ hpp).mp haff
    linarith
  have hrisk : apply_risk_rules (build_trade_intent s price)
      (ctx.cash_by_sim s.simulator_id)
      (ctx.holdings_by_sim s.simulator_id (strUpper (strStrip s.ticker)))
      ctx.fee_per_trade = none := by
    unfold apply_risk_rules
    rw [hqty, href]
    simp only [hside, if_neg (not_lt.mpr hrisk_le)]
  have hna : ¬ s.action = "hold" := by
    rw [ha]
    decide
  unfold process_signal
  simp only [hv, if_neg hna, hp, hsize, hrisk, hside, hqty, href]

/-! ## Claim theorems: execution service -/

/-- Counterexample to claim C1 as stated: with positive slippage, a buy
signal that passes the structural, affordability and risk checks (all
computed at the market price) fills above the market price and drives
the simulator's batch-local cash negative.  Cash 1000, fee 0, slippage
100 bps, market price 100, quantity 10: the signal is executed and cash
ends at -10. -/
theorem execute_batch_slippage_negative_cash :
    ((execute_batch (fun _ => some 100)
        [⟨1, 1, "AAPL", "buy", 10, "sma_crossover"⟩]
        ⟨0, 0, 100, fun _ => 1000, fun _ _ => 0⟩).2.map Prod.fst =
      [⟨"executed", none, 0⟩]) ∧
    (execute_batch (fun _ => some 100)
        [⟨1, 1, "AAPL", "buy", 10, "sma_crossover"⟩]
        ⟨0, 0, 100, fun _ => 1000, fun _ _ => 0⟩).1.cash_by_sim 1 < 0 := by
  have hps := process_signal_buy_executed (fun _ => some 100)
    ⟨1, 1, "AAPL", "buy", 10, "sma_crossover"⟩
    ⟨0, 0, 100, fun _ => 1000, fun _ _ => 0⟩ 100
    rfl (by decide) rfl (by norm_num) (by norm_num) (by norm_num) (by norm_num)
  have hbatch : execute_batch (fun _ => some 100)
      [⟨1, 1, "AAPL", "buy", 10, "sma_crossover"⟩]
      ⟨0, 0, 100, fun _ => 1000, fun _ _ => 0⟩ =
      ((process_signal (fun _ => some 100)
          ⟨1, 1, "AAPL", "buy", 10, "sma_crossover"⟩
          ⟨0, 0, 100, fun _ => 1000, fun _ _ => 0⟩).2.2,
        [((process_signal (fun _ => some 100)
            ⟨1, 1, "AAPL", "buy", 10, "sma_crossover"⟩
            ⟨0, 0, 100, fun _ => 1000, fun _ _ => 0⟩).1,
          (process_signal (fun _ => some 100)
            ⟨1, 1, "AAPL", "buy", 10, "sma_crossover"⟩
            ⟨0, 0, 100, fun _ => 1000, fun _ _ => 0⟩).2.1)]) := rfl
  rw [hbatch, hps]
  refine ⟨rfl, ?_⟩
  have hfill : estimate_fill_price .buy (100 : Rat) 100 = 101 := by
    unfold estimate_fill_price
    norm_num
  simp only [apply_trade_effect, updCash, hfill]
  norm_num

/-- A buy intent that passes `_size_executable_quantity` has positive
quantity and price, available cash strictly above the fee, and a total
cost at the market price of at most `cash - fee`. -/
theorem size_executable_quantity_buy_none (intent : TradeIntent)
    (cash held fee : Rat) (hside : intent.side = .buy)
    (h : size_executable_quantity intent cash held fee = none) :
    0 < intent.quantity ∧ 0 < intent.reference_price ∧ fee < cash ∧
      intent.quantity * intent.reference_price ≤ cash - fee := by
  obtain ⟨sid, simid, sym, side, q, rp, sn⟩ := intent
  simp only at hside
  subst hside
  unfold size_executable_quantity at h
  dsimp only at h ⊢
  by_cases h1 : q ≤ 0
  · rw [if_pos h1] at h
    exact Option.noConfusion h
  rw [if_neg h1] at h
  by_cases h2 : rp ≤ 0
  · rw [if_pos h2] at h
    exact Option.noConfusion h
  rw [if_neg h2] at h
  by_cases h3 : cash > fee
  · rw [if_pos h3] at h
    by_cases h4 : q > (cash - fee) / rp
    · rw [if_pos h4] at h
      exact Option.noConfusion h
    · have hmul : q * rp ≤ cash - fee :=
        (le_div_iff₀ (not_le.mp h2)).mp (not_lt.mp h4)
      exact ⟨not_le.mp h1, not_le.mp h2, h3, hmul⟩
  · rw [if_neg h3, if_pos (not_le.mp h1)] at h
    exact Option.noConfusion h

/-- Stronger shape lemma: when `_process_signal` executes a trade, the
sizing and risk checks returned no error, and the new context is the
trade effect at the signal's simulator. -/
theorem process_signal_executed_cases (f : String → Option Rat)
    (s : SimulatorSignal) (ctx : ExecutionContext) :
    (process_signal f s ctx).2.2 = ctx ∨
    ∃ price, f (strUpper (strStrip s.ticker)) = some price ∧
      size_executable_quantity (build_trade_intent s price)
        (ctx.cash_by_sim s.simulator_id)
        (ctx.holdings_by_sim s.simulator_id (strUpper (strStrip s.ticker)))
        ctx.fee_per_trade = none ∧
      (process_signal f s ctx).2.2 =
        apply_trade_effect ctx s.simulator_id (strUpper (strStrip s.ticker))
          (build_trade_intent s price).side s.quantity
          (estimate_fill_price (build_trade_intent s price).side price ctx.slippage_bps *
            s.quantity)
          ctx.fee_per_trade (ctx.cash_by_sim s.simulator_id)
          (ctx.holdings_by_sim s.simulator_id (strUpper (strStrip s.ticker))) := by
  unfold process_signal
  rcases validate_signal s with _ | err
  · by_cases ha : s.action = "hold"
    · simp [ha]
    · simp only [if_neg ha]
      cases hp : f (strUpper (strStrip s.ticker)) with
      | none => simp
      | some price =>
        dsimp only
        cases hs : size_executable_quantity (build_trade_intent s price)
            (ctx.cash_by_sim s.simulator_id)
            (ctx.holdings_by_sim s.simulator_id (strUpper (strStrip s.ticker)))
            ctx.fee_per_trade with
        | some e1 => simp
        | none =>
          cases hr : apply_risk_rules (build_trade_intent s price)
              (ctx.cash_by_sim s.simulator_id)
              (ctx.holdings_by_sim s.simulator_id (strUpper (strStrip s.ticker)))
              ctx.fee_per_trade with
          | some e2 => simp
          | none =>
            right
            exact ⟨price, rfl, hs, rfl⟩
  · simp

/-- `_process_signal` never changes the scalar settings of the
execution context (fee, slippage, timestamp). -/
theorem process_signal_preserves_fields (f : String → Option Rat)
    (s : SimulatorSignal) (ctx : ExecutionContext) :
    (process_signal f s ctx).2.2.fee_per_trade = ctx.fee_per_trade ∧
    (process_signal f s ctx).2.2.slippage_bps = ctx.slippage_bps ∧
    (process_signal f s ctx).2.2.now = ctx.now := by
  rcases process_signal_ctx_cases f s ctx with h | ⟨sym, side, q, tv, fee, cc, ch, h⟩ <;>
    rw [h]
  · exact ⟨rfl, rfl, rfl⟩
  · exact apply_trade_effect_fields ctx s.simulator_id sym side q tv fee cc ch

/-- Per-signal step of the amended no-negative-cash invariant: under
zero slippage, processing a buy signal keeps every simulator's
batch-local cash nonnegative. -/
theorem process_signal_buy_cash_nonneg (f : String → Option Rat)
    (s : SimulatorSignal) (ctx : ExecutionContext)
    (ha : s.action = "buy") (hslip : ctx.slippage_bps = 0)
    (hc : ∀ i, 0 ≤ ctx.cash_by_sim i) :
    ∀ i, 0 ≤ (process_signal f s ctx).2.2.cash_by_sim i := by
  intro i
  rcases process_signal_executed_cases f s ctx with h | ⟨price, hp, hsize, h⟩
  · rw [h]
    exact hc i
  · have hside : (build_trade_intent s price).side = .buy := by
      unfold build_trade_intent
      rw [ha]
      rfl
    obtain ⟨hq, hpp, hcf, hmul⟩ :=
      size_executable_quantity_buy_none (build_trade_intent s price)
        (ctx.cash_by_sim s.simulator_id)
        (ctx.holdings_by_sim s.simulator_id (strUpper (strStrip s.ticker)))
        ctx.fee_per_trade hside hsize
    have hqty : (build_trade_intent s price).quantity = s.quantity := rfl
    have href : (build_trade_intent s price).reference_price = price := rfl
    rw [hqty, href] at hmul
    have hfill : estimate_fill_price .buy price ctx.slippage_bps = price := by
      rw [hslip]
      unfold estimate_fill_price
      norm_num
    rw [h, hside, hfill]
    simp only [apply_trade_effect, updCash]
    by_cases hi : i = s.simulator_id
    · rw [if_pos hi]
      have hcomm : price * s.quantity = s.quantity * price := mul_comm price s.quantity
      linarith
    · rw [if_neg hi]
      exact hc i

/-- Generalized-accumulator form of the amended C1 invariant. -/
theorem execute_fold_buy_cash_nonneg (f : String → Option Rat) :
    ∀ (signals : List SimulatorSignal) (ctx : ExecutionContext)
      (acc : List (SignalUpdate × Option SimulatorTrade)),
      (∀ s ∈ signals, s.action = "buy") → ctx.slippage_bps = 0 →
      (∀ i, 0 ≤ ctx.cash_by_sim i) →
      ∀ i, 0 ≤ (signals.foldl (execute_step f) (ctx, acc)).1.cash_by_sim i := by
  intro signals
  induction signals with
  | nil =>
    intro ctx acc _ _ hc i
    exact hc i
  | cons s rest ih =>
    intro ctx acc hall hslip hc i
    rw [List.foldl_cons]
    have hstep : execute_step f (ctx, acc) s =
        ((process_signal f s ctx).2.2,
          acc ++ [((process_signal f s ctx).1, (process_signal f s ctx).2.1)]) := rfl
    rw [hstep]
    exact ih (process_signal f s ctx).2.2 _
      (fun t htm => hall t (List.mem_cons_of_mem s htm))
      (by rw [(process_signal_preserves_fields f s ctx).2.1, hslip])
      (process_signal_buy_cash_nonneg f s ctx
        (hall s (List.mem_cons_self s rest)) hslip hc) i

/-- Claim C1 (amended): with zero slippage and any nonnegative fee,
executing a batch of buy signals from nonnegative batch-local cash
never drives any simulator's cash negative — every executed buy pays at
most `cash - fee` at the market fill price, and failed or skipped
signals leave cash unchanged. -/
theorem execute_batch_no_negative_cash (f : String → Option Rat)
    (signals : List SimulatorSignal) (ctx : ExecutionContext)
    (hall : ∀ s ∈ signals, s.action = "buy")
    (hfee : 0 ≤ ctx.fee_per_trade) (hslip : ctx.slippage_bps = 0)
    (hc : ∀ i, 0 ≤ ctx.cash_by_sim i) :
    ∀ i, 0 ≤ (execute_batch f signals ctx).1.cash_by_sim i := by
  have hbatch : execute_batch f signals ctx =
      signals.foldl (execute_step f) (ctx, []) := rfl
  rw [hbatch]
  exact execute_fold_buy_cash_nonneg f signals ctx [] hall hslip hc

/-- Witness for C1 (amended): a concrete one-buy batch at cash 1000,
fee 1, price 10, quantity 2 keeps every simulator's cash nonnegative. -/
theorem execute_batch_no_negative_cash_witness :
    0 ≤ (execute_batch (fun _ => some 10)
        [⟨1, 1, "AAPL", "buy", 2, "sma_crossover"⟩]
        ⟨0, 1, 0, fun _ => 1000, fun _ _ => 0⟩).1.cash_by_sim 1 :=
  execute_batch_no_negative_cash (fun _ => some 10)
    [⟨1, 1, "AAPL", "buy", 2, "sma_crossover"⟩]
    ⟨0, 1, 0, fun _ => 1000, fun _ _ => 0⟩
    (by intro s hs; simp at hs; rw [hs])
    (by norm_num) rfl (fun i => by norm_num) 1

/-- Claim C7: the fill-price model applies slippage in basis points —
a buy fills at `price × (1 + bps/10000)`, a sell fills at
`price × (1 − bps/10000)`, and zero slippage returns the market price
unmodified. -/
theorem estimate_fill_price_slippage_model (p s : Rat) (hs : 0 ≤ s) :
    estimate_fill_price .buy p s = p * (1 + s / 10000) ∧
    estimate_fill_price .sell p s = p * (1 - s / 10000) ∧
    ∀ side, estimate_fill_price side p 0 = p := by
  rcases eq_or_lt_of_le hs with h | h
  · subst h
    refine ⟨by simp [estimate_fill_price], by simp [estimate_fill_price], ?_⟩
    intro side
    simp [estimate_fill_price]
  · have hns : ¬ s ≤ 0 := not_le.mpr h
    refine ⟨?_, ?_, ?_⟩
    · simp [estimate_fill_price, hns]
    · simp [estimate_fill_price, hns]
    · intro side
      simp [estimate_fill_price]

/-- Witness for C7 at market price 100 and slippage 50 bps. -/
theorem estimate_fill_price_slippage_model_witness :
    estimate_fill_price .buy 100 50 = 100 * (1 + 50 / 10000) ∧
    estimate_fill_price .sell 100 50 = 100 * (1 - 50 / 10000) ∧
    ∀ side, estimate_fill_price side 100 0 = 100 :=
  estimate_fill_price_slippage_model 100 50 (by norm_num)

/-- Claim C10: processing a signal of simulator `s` mutates at most the
batch-local cash and holdings entries of that simulator; for every
other simulator the context entries are unchanged. -/
theorem process_signal_frame (f : String → Option Rat)
    (s : SimulatorSignal) (ctx : ExecutionContext) (t : Nat)
    (ht : t ≠ s.simulator_id) :
    (process_signal f s ctx).2.2.cash_by_sim t = ctx.cash_by_sim t ∧
    ∀ sym, (process_signal f s ctx).2.2.holdings_by_sim t sym =
      ctx.holdings_by_sim t sym := by
  rcases process_signal_ctx_cases f s ctx with h | ⟨sym, side, q, tv, fee, cc, ch, h⟩
  · rw [h]
    exact ⟨rfl, fun _ => rfl⟩
  · rw [h]
    exact apply_trade_effect_other_sim ctx s.simulator_id sym side q tv fee cc ch t ht

/-- Witness for C10: a concrete signal of simulator 1 leaves the
entries of simulator 2 unchanged. -/
theorem process_signal_frame_witness :
    (process_signal (fun _ => some 10)
        ⟨7, 1, "AAPL", "buy", 1, "sma_crossover"⟩
        ⟨0, 0, 0, fun _ => 1000, fun _ _ => 0⟩).2.2.cash_by_sim 2 =
      (⟨0, 0, 0, fun _ => 1000, fun _ _ => 0⟩ : ExecutionContext).cash_by_sim 2 ∧
    ∀ sym,
      (process_signal (fun _ => some 10)
          ⟨7, 1, "AAPL", "buy", 1, "sma_crossover"⟩
          ⟨0, 0, 0, fun _ => 1000, fun _ _ => 0⟩).2.2.holdings_by_sim 2 sym =
        (⟨0, 0, 0, fun _ => 1000, fun _ _ => 0⟩ : ExecutionContext).holdings_by_sim 2 sym :=
  process_signal_frame (fun _ => some 10)
    ⟨7, 1, "AAPL", "buy", 1, "sma_crossover"⟩
    ⟨0, 0, 0, fun _ => 1000, fun _ _ => 0⟩ 2 (by decide)

/-- Counterexample to claim C4 as stated: a `hold` signal whose ticker
is blank is marked `failed` (structural validation runs first), not
`skipped`. -/
theorem hold_blank_ticker_not_skipped :
    (process_signal (fun _ => none)
        ⟨1, 1, "", "hold", 0, "sma_crossover"⟩
        ⟨0, 0, 0, fun _ => 0, fun _ _ => 0⟩).1 =
      ⟨"failed", some "signal missing ticker", 0⟩ ∧
    (process_signal (fun _ => none)
        ⟨1, 1, "", "hold", 0, "sma_crossover"⟩
        ⟨0, 0, 0, fun _ => 0, fun _ _ => 0⟩).1.status ≠ "skipped" := by
  constructor
  · rfl
  · decide

/-- Claim C4 (amended): every `hold` signal with a non-blank ticker is
terminally `skipped` with error text exactly
"hold signal is not executable", for every price oracle — the price
lookup is never consulted. -/
theorem hold_signal_always_skipped (f : String → Option Rat)
    (s : SimulatorSignal) (ctx : ExecutionContext)
    (ha : s.action = "hold") (ht : strStrip s.ticker ≠ "") :
    process_signal f s ctx =
      (⟨"skipped", some "hold signal is not executable", ctx.now⟩, none, ctx) := by
  have hv : validate_signal s = none := by
    unfold validate_signal
    rw [if_neg ht, ha]
    simp
  unfold process_signal
  rw [hv, ha]
  simp

/-- Witness for C4 (amended) at a concrete hold signal, under an oracle
with no price for any ticker. -/
theorem hold_signal_always_skipped_witness :
    process_signal (fun _ => none)
        ⟨3, 5, "MSFT", "hold", 0, "sma_crossover"⟩
        ⟨17, 0, 0, fun _ => 0, fun _ _ => 0⟩ =
      (⟨"skipped", some "hold signal is not executable", 17⟩, none,
        ⟨17, 0, 0, fun _ => 0, fun _ _ => 0⟩) :=
  hold_signal_always_skipped (fun _ => none)
    ⟨3, 5, "MSFT", "hold", 0, "sma_crossover"⟩
    ⟨17, 0, 0, fun _ => 0, fun _ _ => 0⟩ rfl (by decide)

/-- Characterization of the fully-executed sell path of
`_process_signal`: a sell signal with positive quantity not exceeding
the held shares is executed whatever the price — no positive-price
guard exists on the sell side. -/
theorem process_signal_sell_executed (f : String → Option Rat) (s : SimulatorSignal)
    (ctx : ExecutionContext) (price : Rat)
    (ha : s.action = "sell") (ht : strStrip s.ticker ≠ "")
    (hp : f (strUpper (strStrip s.ticker)) = some price)
    (hq : 0 < s.quantity)
    (hheld : s.quantity ≤ ctx.holdings_by_sim s.simulator_id (strUpper (strStrip s.ticker))) :
    process_signal f s ctx =
      (⟨"executed", none, ctx.now⟩,
        some (to_trade s.simulator_id (strUpper (strStrip s.ticker)) .sell s.quantity
          (estimate_fill_price .sell price ctx.slippage_bps) ctx.fee_per_trade ctx.now),
        apply_trade_effect ctx s.simulator_id (strUpper (strStrip s.ticker)) .sell
          s.quantity (estimate_fill_price .sell price ctx.slippage_bps * s.quantity)
          ctx.fee_per_trade (ctx.cash_by_sim s.simulator_id)
          (ctx.holdings_by_sim s.simulator_id (strUpper (strStrip s.ticker)))) := by
  have hv : validate_signal s = none := by
    unfold validate_signal
    rw [if_neg ht, ha]
    simp [not_le.mpr hq]
  have hside : (build_trade_intent s price).side = .sell := by
    unfold build_trade_intent
    rw [ha]
    rfl
  have hqty : (build_trade_intent s price).quantity = s.quantity := rfl
  have href : (build_trade_intent s price).reference_price = price := rfl
  have hsize : size_executable_quantity (build_trade_intent s price)
      (ctx.cash_by_sim s.simulator_id)
      (ctx.holdings_by_sim s.simulator_id (strUpper (strStrip s.ticker)))
      ctx.fee_per_trade = none := by
    unfold size_executable_quantity
    rw [hqty]
    simp only [hside, if_neg (not_le.mpr hq)]
    rw [if_neg (not_lt.mpr hheld)]
  have hrisk : apply_risk_rules (build_trade_intent s price)
      (ctx.cash_by_sim s.simulator_id)
      (ctx.holdings_by_sim s.simulator_id (strUpper (strStrip s.ticker)))
      ctx.fee_per_trade = none := by
    unfold apply_risk_rules
    rw [hqty]
    simp only [hside]
    rw [if_neg (not_lt.mpr hheld)]
  have hna : ¬ s.action = "hold" := by
    rw [ha]
    decide
  unfold process_signal
  simp only [hv, if_neg hna, hp, hsize, hrisk, hside, hqty, href]

/-! ## Supporting lemmas on trade replay -/

/-- Replaying a concatenated ledger continues from the state reached by
the successfully replayed prefix. -/
theorem replay_go_append (l2 : List ExecutedTrade) :
    ∀ (l1 : List ExecutedTrade) (cash : Rat) (positions : List (String × Position))
      (c : Rat) (p : List (String × Position)),
      replay_go cash positions l1 = .ok (c, p) →
      replay_go cash positions (l1 ++ l2) = replay_go c p l2 := by
  intro l1
  induction l1 with
  | nil =>
    intro cash positions c p h
    simp only [replay_go, Except.ok.injEq, Prod.mk.injEq] at h
    rw [List.nil_append, h.1, h.2]
  | cons t rest ih =>
    intro cash positions c p h
    rw [List.cons_append]
    simp only [replay_go] at h ⊢
    cases hv : validate_trade t with
    | some err =>
      rw [hv] at h
      exact absurd h (by simp)
    | none =>
      rw [hv] at h
      dsimp only at h ⊢
      by_cases hside : t.side = SignalAction.buy
      · rw [if_pos hside] at h ⊢
        exact ih _ _ _ _ h
      · rw [if_neg hside] at h ⊢
        by_cases hover : t.quantity > (current_position positions t.symbol).quantity
        · rw [if_pos hover] at h
          exact absurd h (by simp)
        · rw [if_neg hover] at h ⊢
          by_cases hz : (current_position positions t.symbol).quantity - t.quantity = 0
          · rw [if_pos hz] at h ⊢
            exact ih _ _ _ _ h
          · rw [if_neg hz] at h ⊢
            exact ih _ _ _ _ h

/-! ## Claim theorems: portfolio reconciliation -/

/-- Claim C2: replaying, from starting cash 1000, the ledger
[buy 2 at 100 fee 1, buy 1 at 130 fee 1, sell 1 at 150 fee 1] yields
cash exactly 817, remaining quantity exactly 2 and average cost exactly
332/3; in general every buy subtracts `price * quantity + fee` from
cash and sets the average cost to
`(held * old_avg + price * quantity + fee) / new_quantity`. -/
theorem replay_trades_weighted_average_cost :
    (replay_trades 1000
      [⟨1, 1, "AAPL", .buy, 2, 100, 1, 1⟩,
       ⟨2, 1, "AAPL", .buy, 1, 130, 1, 2⟩,
       ⟨3, 1, "AAPL", .sell, 1, 150, 1, 3⟩] =
      .ok (817, [("AAPL", ⟨"AAPL", 2, 332 / 3⟩)])) ∧
    ∀ (cash : Rat) (positions : List (String × Position)) (t : ExecutedTrade)
      (rest : List ExecutedTrade),
      t.side = .buy → validate_trade t = none →
      replay_go cash positions (t :: rest) =
        replay_go (cash - (t.price * t.quantity + t.fee))
          (dictSet positions t.symbol
            ⟨t.symbol, (current_position positions t.symbol).quantity + t.quantity,
              ((current_position positions t.symbol).quantity *
                  (current_position positions t.symbol).average_cost +
                t.price * t.quantity + t.fee) /
                ((current_position positions t.symbol).quantity + t.quantity)⟩)
          rest := by
  constructor
  · norm_num [replay_trades, replay_go, validate_trade, current_position, lookupPos,
      dictSet, dictPop] <;> decide
  · intro cash positions t rest hside hval
    simp only [replay_go]
    rw [hval]
    dsimp only
    rw [if_pos hside]

/-- Witness for the general buy step of C2 at a concrete trade. -/
theorem replay_trades_weighted_average_cost_witness :
    replay_go 500 [] [⟨1, 1, "TSLA", .buy, 1, 50, 0, 1⟩] =
      replay_go (500 - (50 * 1 + 0))
        (dictSet [] "TSLA"
          ⟨"TSLA", (current_position [] "TSLA").quantity + 1,
            ((current_position [] "TSLA").quantity *
                (current_position [] "TSLA").average_cost + 50 * 1 + 0) /
              ((current_position [] "TSLA").quantity + 1)⟩) [] :=
  replay_trades_weighted_average_cost.2 500 [] ⟨1, 1, "TSLA", .buy, 1, 50, 0, 1⟩ []
    rfl (by norm_num [validate_trade])

/-- Claim C3: a ledger containing a sell whose quantity exceeds the
quantity held at that point of the replay makes `_replay_trades` abort
with the oversell error, whose message states how many shares the trade
sells versus how many are held; no clamped result is produced. -/
theorem replay_trades_oversell_aborts (starting_cash : Rat)
    (pre : List ExecutedTrade) (t : ExecutedTrade) (rest : List ExecutedTrade)
    (c : Rat) (p : List (String × Position))
    (hpre : replay_go starting_cash [] pre = .ok (c, p))
    (hside : t.side = .sell) (hval : validate_trade t = none)
    (hover : (current_position p t.symbol).quantity < t.quantity) :
    ∃ msg, replay_trades starting_cash (pre ++ t :: rest) = .error msg ∧
      msg = "trade_id=" ++ toString t.trade_id ++ " sells " ++ toString t.quantity ++
        " but holds only " ++ toString (current_position p t.symbol).quantity ++
        " for symbol=" ++ t.symbol := by
  refine ⟨oversell_msg t (current_position p t.symbol).quantity, ?_, rfl⟩
  unfold replay_trades
  rw [replay_go_append (t :: rest) pre starting_cash [] c p hpre]
  simp only [replay_go]
  rw [hval]
  dsimp only
  rw [if_neg (by rw [hside]; decide), if_pos hover]

/-- Witness for C3: the one-trade ledger selling 1 share with no prior
buy aborts reconciliation with the oversell message. -/
theorem replay_trades_oversell_aborts_witness :
    ∃ msg,
      replay_trades 1000 ([] ++ ⟨1, 1, "AAPL", .sell, 1, 10, 0, 1⟩ :: []) = .error msg ∧
      msg = "trade_id=" ++ toString (1 : Nat) ++ " sells " ++ toString (1 : Rat) ++
        " but holds only " ++ toString (current_position [] "AAPL").quantity ++
        " for symbol=" ++ "AAPL" :=
  replay_trades_oversell_aborts 1000 [] ⟨1, 1, "AAPL", .sell, 1, 10, 0, 1⟩ [] 1000 []
    rfl rfl (by norm_num [validate_trade]) (by norm_num [current_position, lookupPos])

/-- Claim C9: the execution service guards against a non-positive price
only on the buy path; a pending sell whose latest stored close is zero
or negative and whose quantity does not exceed the held shares is
executed and yields a trade row at that non-positive price — a row that
`_validate_trade` rejects as ledger corruption, so a later replay of a
ledger containing it aborts. -/
theorem sell_nonpositive_price_trade_rejected_later
    (f : String → Option Rat) (ctx : ExecutionContext)
    (sid simid : Nat) (q price : Rat) (name : String)
    (hp : f "AAPL" = some price) (hprice : price ≤ 0) (hq : 0 < q)
    (hheld : q ≤ ctx.holdings_by_sim simid "AAPL")
    (hslip : ctx.slippage_bps = 0) :
    (process_signal f ⟨sid, simid, "AAPL", "sell", q, name⟩ ctx).1.status = "executed" ∧
    ∃ tr, (process_signal f ⟨sid, simid, "AAPL", "sell", q, name⟩ ctx).2.1 = some tr ∧
      tr.price = price ∧
      ∀ trade_id : Nat, ∃ et, executed_trade_of_row trade_id tr = some et ∧
        validate_trade et =
          some ("trade_id=" ++ toString trade_id ++ " has non-positive price") ∧
        ∀ (cash : Rat) (positions : List (String × Position)) (rest : List ExecutedTrade),
          replay_go cash positions (et :: rest) =
            .error ("trade_id=" ++ toString trade_id ++ " has non-positive price") := by
  have hfill : estimate_fill_price .sell price ctx.slippage_bps = price := by
    rw [hslip]
    simp [estimate_fill_price]
  have hps := process_signal_sell_executed f ⟨sid, simid, "AAPL", "sell", q, name⟩ ctx price
    rfl (by show strStrip "AAPL" ≠ ""; decide) hp hq hheld
  rw [hps, hfill]
  have hval_et : ∀ trade_id : Nat,
      validate_trade ⟨trade_id, simid, "AAPL", .sell, q, price, ctx.fee_per_trade, ctx.now⟩ =
        some ("trade_id=" ++ toString trade_id ++ " has non-positive price") := by
    intro trade_id
    unfold validate_trade
    rw [if_neg (by
      show ¬¬(SignalAction.sell = SignalAction.buy ∨ SignalAction.sell = SignalAction.sell)
      decide)]
    rw [if_neg (not_le.mpr hq), if_pos hprice]
  refine ⟨rfl, to_trade simid "AAPL" .sell q price ctx.fee_per_trade ctx.now, rfl, rfl, ?_⟩
  intro trade_id
  refine ⟨⟨trade_id, simid, "AAPL", .sell, q, price, ctx.fee_per_trade, ctx.now⟩, rfl,
    hval_et trade_id, ?_⟩
  intro cash positions rest
  simp only [replay_go]
  rw [hval_et trade_id]

/-- Witness for C9: a concrete sell of 1 share at stored close 0 with 5
shares held is executed, and the resulting trade is rejected by ledger
validation. -/
theorem sell_nonpositive_price_trade_rejected_later_witness :
    (process_signal (fun _ => some 0) ⟨1, 2, "AAPL", "sell", 1, "sma_crossover"⟩
        ⟨0, 0, 0, fun _ => 0, fun _ _ => 5⟩).1.status = "executed" ∧
    ∃ tr, (process_signal (fun _ => some 0) ⟨1, 2, "AAPL", "sell", 1, "sma_crossover"⟩
        ⟨0, 0, 0, fun _ => 0, fun _ _ => 5⟩).2.1 = some tr ∧
      tr.price = 0 ∧
      ∀ trade_id : Nat, ∃ et, executed_trade_of_row trade_id tr = some et ∧
        validate_trade et =
          some ("trade_id=" ++ toString trade_id ++ " has non-positive price") ∧
        ∀ (cash : Rat) (positions : List (String × Position)) (rest : List ExecutedTrade),
          replay_go cash positions (et :: rest) =
            .error ("trade_id=" ++ toString trade_id ++ " has non-positive price") :=
  sell_nonpositive_price_trade_rejected_later (fun _ => some 0)
    ⟨0, 0, 0, fun _ => 0, fun _ _ => 5⟩ 1 2 1 0 "sma_crossover"
    rfl (by norm_num) (by norm_num) (by norm_num) rfl

/-! ## `services/strategy.py` and `services/evaluation.py` — data model -/

/-- `Signal` dataclass: decision output from a strategy for a single
symbol. -/
structure Signal where
  symbol : String
  action : SignalAction
  quantity : Rat
  reason : String
  confidence : Rat
  strategy_name : String
  created_at : Nat
deriving DecidableEq

/-- `EvaluationService.validate_signal_batch`. -/
def validate_signal_batch : List Signal → List Signal
  | [] => []
  | s :: rest =>
    if ¬ (s.action.value = "buy" ∨ s.action.value = "sell" ∨ s.action.value = "hold") then
      validate_signal_batch rest
    else if s.quantity < 0 then
      validate_signal_batch rest
    else if strUpper (strStrip s.symbol) = "" then
      validate_signal_batch rest
    else s :: validate_signal_batch rest

/-- Every `SignalAction` member's value is one of the three recognized
action strings (the typed `action` field makes the first check of
`validate_signal_batch` vacuous). -/
theorem action_value_valid (a : SignalAction) :
    a.value = "buy" ∨ a.value = "sell" ∨ a.value = "hold" := by
  cases a <;> simp [SignalAction.value]

/-- Uppercasing does not change blankness. -/
theorem strUpper_eq_empty_iff (s : String) : strUpper s = "" ↔ s = "" := by
  constructor
  · intro h
    have hd : s.data.map charUpper = ([] : List Char) := congrArg String.data h
    exact String.ext (List.map_eq_nil_iff.mp hd)
  · intro h
    rw [h]
    rfl

/-- Claim C8: `validate_signal_batch` keeps a signal exactly when its
action is one of buy/sell/hold, its quantity is nonnegative and its
symbol is non-blank after stripping, dropping every other signal and
modifying none (the output is literally the filtered input). -/
theorem validate_signal_batch_keeps_iff (signals : List Signal) :
    validate_signal_batch signals =
      signals.filter (fun s =>
        decide ((s.action.value = "buy" ∨ s.action.value = "sell" ∨
            s.action.value = "hold") ∧
          0 ≤ s.quantity ∧ strStrip s.symbol ≠ "")) := by
  induction signals with
  | nil => rfl
  | cons s rest ih =>
    have hact := action_value_valid s.action
    simp only [validate_signal_batch, List.filter_cons]
    rw [if_neg (not_not_intro hact)]
    by_cases hq : s.quantity < 0
    · rw [if_pos hq]
      have hpred : ¬ ((s.action.value = "buy" ∨ s.action.value = "sell" ∨
          s.action.value = "hold") ∧ 0 ≤ s.quantity ∧ strStrip s.symbol ≠ "") :=
        fun hcon => absurd hcon.2.1 (not_le.mpr hq)
      rw [if_neg (by simpa using hpred)]
      exact ih
    · rw [if_neg hq]
      by_cases hsym : strUpper (strStrip s.symbol) = ""
      · rw [if_pos hsym]
        have hblank : strStrip s.symbol = "" := (strUpper_eq_empty_iff _).mp hsym
        have hpred : ¬ ((s.action.value = "buy" ∨ s.action.value = "sell" ∨
            s.action.value = "hold") ∧ 0 ≤ s.quantity ∧ strStrip s.symbol ≠ "") :=
          fun hcon => absurd hblank hcon.2.2
        rw [if_neg (by simpa using hpred)]
        exact ih
      · rw [if_neg hsym]
        have hpred : (s.action.value = "buy" ∨ s.action.value = "sell" ∨
            s.action.value = "hold") ∧ 0 ≤ s.quantity ∧ strStrip s.symbol ≠ "" :=
          ⟨hact, not_lt.mp hq,
            fun hblank => hsym (by rw [hblank]; rfl)⟩
        rw [if_pos (by simpa using hpred)]
        rw [ih]

/-! ## `services/strategy.py` — SMA crossover strategy -/

/-- `PriceBar` dataclass from `pricing.py` (daily OHLCV record; the
`open` field is named `opn` because `open` is a Lean keyword; `day` is
an abstract ordinal date). -/
structure PriceBar where
  symbol : String
  day : Nat
  opn : Rat
  high : Rat
  low : Rat
  close : Rat
  volume : Nat
  source : String

instance : DecidableRel (fun a b : PriceBar => a.day ≤ b.day) :=
  fun a b => Nat.decLe a.day b.day

/-- `_sma`: mean of the last `window` values (`values[-window:]`); the
`ValueError` on insufficient values is an `Except.error`. -/
def sma (values : List Rat) (window : Nat) : Except String Rat :=
  if values.length < window then .error "Insufficient values for SMA calculation"
  else .ok ((values.drop (values.length - window)).sum / (window : Rat))

/-- The value `_sma` computes when it does not raise. -/
def sma_val (values : List Rat) (window : Nat) : Rat :=
  (values.drop (values.length - window)).sum / (window : Rat)

/-- `_confidence_from_spread`. -/
def confidence_from_spread (short_sma long_sma : Rat) : Rat :=
  if long_sma = 0 then 0
  else min 1 (|short_sma - long_sma| / |long_sma|)

/-- One step of the `defaultdict(list)` grouping loop of
`generate_signals`: append the bar to its symbol's entry, creating a
new entry at the end on first occurrence (Python dict insertion
order). -/
def groupInsert (groups : List (String × List PriceBar)) (sym : String) (bar : PriceBar) :
    List (String × List PriceBar) :=
  match groups with
  | [] => [(sym, [bar])]
  | (k, l) :: rest =>
    if k = sym then (k, l ++ [bar]) :: rest else (k, l) :: groupInsert rest sym bar

/-- `bars_by_symbol`: group the price bars by uppercased symbol. -/
def group_bars_by_symbol (prices : List PriceBar) : List (String × List PriceBar) :=
  prices.foldl (fun gs bar => groupInsert gs (strUpper bar.symbol) bar) []

/-- The close series of one symbol: its bars sorted by day (Python
`sorted` is a stable sort by key, embedded as insertion sort). -/
def closes_of (symbol_bars : List PriceBar) : List Rat :=
  (List.insertionSort (fun a b => a.day ≤ b.day) symbol_bars).map PriceBar.close

/-- `position.quantity if position else Decimal("0")` for one symbol of
the portfolio snapshot. -/
def current_quantity (portfolio : PortfolioSnapshot) (symbol : String) : Rat :=
  match lookupPos portfolio.positions symbol with
  | some p => p.quantity
  | none => 0

/-- The per-symbol body of the `generate_signals` loop of
`SimpleMovingAverageStrategy`. -/
def signal_for_symbol (short_window long_window : Nat) (trade_quantity : Rat)
    (portfolio : PortfolioSnapshot) (created_at : Nat)
    (symbol : String) (symbol_bars : List PriceBar) : Except String Signal :=
  if (closes_of symbol_bars).length < long_window then
    .ok ⟨symbol, .hold, 0,
      "Not enough history for SMA crossover (" ++ toString (closes_of symbol_bars).length ++
        "/" ++ toString long_window ++ " bars)",
      0, "sma_crossover", created_at⟩
  else
    match sma (closes_of symbol_bars).dropLast short_window with
    | .error e => .error e
    | .ok prev_short =>
      match sma (closes_of symbol_bars).dropLast long_window with
      | .error e => .error e
      | .ok prev_long =>
        match sma (closes_of symbol_bars) short_window with
        | .error e => .error e
        | .ok curr_short =>
          match sma (closes_of symbol_bars) long_window with
          | .error e => .error e
          | .ok curr_long =>
            if prev_short ≤ prev_long ∧ curr_long < curr_short then
              .ok ⟨symbol, .buy, trade_quantity, "Short SMA crossed above long SMA",
                confidence_from_spread curr_short curr_long, "sma_crossover", created_at⟩
            else if (prev_long ≤ prev_short ∧ curr_short < curr_long) ∧
                0 < current_quantity portfolio symbol then
              .ok ⟨symbol, .sell, min trade_quantity (current_quantity portfolio symbol),
                "Short SMA crossed below long SMA",
                confidence_from_spread curr_short curr_long, "sma_crossover", created_at⟩
            else if (prev_long ≤ prev_short ∧ curr_short < curr_long) ∧
                current_quantity portfolio symbol ≤ 0 then
              .ok ⟨symbol, .hold, 0, "Bearish crossover but no position to sell",
                confidence_from_spread curr_short curr_long, "sma_crossover", created_at⟩
            else
              .ok ⟨symbol, .hold, 0, "No crossover signal",
                confidence_from_spread curr_short curr_long, "sma_crossover", created_at⟩

/-- The `for symbol, symbol_bars in bars_by_symbol.items()` loop of
`generate_signals`: the first raised exception aborts the whole run. -/
def signals_for_groups (short_window long_window : Nat) (trade_quantity : Rat)
    (portfolio : PortfolioSnapshot) (created_at : Nat) :
    List (String × List PriceBar) → Except String (List Signal)
  | [] => .ok []
  | g :: rest =>
    match signal_for_symbol short_window long_window trade_quantity portfolio
        created_at g.1 g.2 with
    | .error e => .error e
    | .ok sig =>
      match signals_for_groups short_window long_window trade_quantity portfolio
          created_at rest with
      | .error e => .error e
      | .ok sigs => .ok (sig :: sigs)

instance : DecidableRel (fun a b : Signal => strLe a.symbol b.symbol = true) :=
  fun a b => instDecidableEqBool (strLe a.symbol b.symbol) true

/-- `SimpleMovingAverageStrategy.generate_signals`.  The three used
entries of `params` are passed directly; the window sizes are naturals,
so the source's `<= 0` parameter guard becomes `= 0`;
`datetime.utcnow()` is the `created_at` input; the final
`sorted(signals, key=symbol)` is a stable sort by the symbol string. -/
def generate_signals (short_window long_window : Nat) (trade_quantity : Rat)
    (prices : List PriceBar) (portfolio : PortfolioSnapshot) (created_at : Nat) :
    Except String (List Signal) :=
  if short_window = 0 ∨ long_window = 0 then
    .error "short_window and long_window must be positive"
  else if long_window ≤ short_window then
    .error "short_window must be smaller than long_window"
  else if trade_quantity ≤ 0 then
    .error "trade_quantity must be positive"
  else
    match signals_for_groups short_window long_window trade_quantity portfolio
        created_at (group_bars_by_symbol prices) with
    | .error e => .error e
    | .ok signals =>
      .ok (List.insertionSort (fun a b => strLe a.symbol b.symbol = true) signals)

/-! ## Claim theorems: SMA crossover strategy -/

/-- Counterexample to claim C5 as stated: at an upward crossover the
emitted reason is "Short SMA crossed above long SMA" (capital S), not
"short SMA crossed above long SMA"; and a symbol with exactly
`long_window` bars makes `generate_signals` raise
"Insufficient values for SMA calculation" instead of emitting any
signal, because the previous-bar SMA needs `long_window + 1` bars. -/
theorem sma_crossover_claim_counterexample :
    (generate_signals 1 2 1
        [⟨"ACME", 1, 10, 10, 10, 10, 0, "yfinance"⟩,
         ⟨"ACME", 2, 10, 10, 10, 10, 0, "yfinance"⟩,
         ⟨"ACME", 3, 20, 20, 20, 20, 0, "yfinance"⟩]
        ⟨1, 1000, [], 0, none⟩ 0 =
      .ok [⟨"ACME", .buy, 1, "Short SMA crossed above long SMA", 1 / 3,
        "sma_crossover", 0⟩]) ∧
    "Short SMA crossed above long SMA" ≠ "short SMA crossed above long SMA" ∧
    (generate_signals 1 2 1
        [⟨"ACME", 1, 10, 10, 10, 10, 0, "yfinance"⟩,
         ⟨"ACME", 2, 20, 20, 20, 20, 0, "yfinance"⟩]
        ⟨1, 1000, [], 0, none⟩ 0 =
      .error "Insufficient values for SMA calculation") := by
  have hup : strUpper "ACME" = "ACME" := by decide
  refine ⟨?_, by decide, ?_⟩ <;>
    norm_num [generate_signals, signals_for_groups, signal_for_symbol, group_bars_by_symbol,
      groupInsert, closes_of, sma, confidence_from_spread, current_quantity, lookupPos,
      List.insertionSort, List.orderedInsert, hup]

/-- Claim C5 (amended): for a symbol whose four SMAs are computable
(which requires strictly more than `long_window` bars): an upward cross
(previous short SMA ≤ previous long SMA, current short SMA > current
long SMA) emits buy with quantity `trade_quantity` and reason
"Short SMA crossed above long SMA"; a downward cross with a positive
holding emits sell with quantity `min trade_quantity held` and reason
"Short SMA crossed below long SMA"; a downward cross with no holding
emits hold with reason "Bearish crossover but no position to sell". -/
theorem sma_crossover_signal_cases (short_window long_window : Nat) (trade_quantity : Rat)
    (portfolio : PortfolioSnapshot) (created_at : Nat) (symbol : String)
    (symbol_bars : List PriceBar) (ps pl cs cl : Rat)
    (hps : sma (closes_of symbol_bars).dropLast short_window = .ok ps)
    (hpl : sma (closes_of symbol_bars).dropLast long_window = .ok pl)
    (hcs : sma (closes_of symbol_bars) short_window = .ok cs)
    (hcl : sma (closes_of symbol_bars) long_window = .ok cl) :
    (ps ≤ pl → cl < cs →
      signal_for_symbol short_window long_window trade_quantity portfolio created_at
          symbol symbol_bars =
        .ok ⟨symbol, .buy, trade_quantity, "Short SMA crossed above long SMA",
          confidence_from_spread cs cl, "sma_crossover", created_at⟩) ∧
    (pl ≤ ps → cs < cl → 0 < current_quantity portfolio symbol →
      signal_for_symbol short_window long_window trade_quantity portfolio created_at
          symbol symbol_bars =
        .ok ⟨symbol, .sell, min trade_quantity (current_quantity portfolio symbol),
          "Short SMA crossed below long SMA",
          confidence_from_spread cs cl, "sma_crossover", created_at⟩) ∧
    (pl ≤ ps → cs < cl → current_quantity portfolio symbol ≤ 0 →
      signal_for_symbol short_window long_window trade_quantity portfolio created_at
          symbol symbol_bars =
        .ok ⟨symbol, .hold, 0, "Bearish crossover but no position to sell",
          confidence_from_spread cs cl, "sma_crossover", created_at⟩) := by
  have hlen : ¬ (closes_of symbol_bars).length < long_window := by
    intro hlt
    rw [sma, if_pos hlt] at hcl
    exact Except.noConfusion hcl
  refine ⟨?_, ?_, ?_⟩
  · intro h1 h2
    unfold signal_for_symbol
    rw [if_neg hlen, hps, hpl, hcs, hcl]
    dsimp only
    rw [if_pos ⟨h1, h2⟩]
  · intro h1 h2 h3
    unfold signal_for_symbol
    rw [if_neg hlen, hps, hpl, hcs, hcl]
    dsimp only
    rw [if_neg (fun hc => (lt_asymm h2) hc.2), if_pos ⟨⟨h1, h2⟩, h3⟩]
  · intro h1 h2 h3
    unfold signal_for_symbol
    rw [if_neg hlen, hps, hpl, hcs, hcl]
    dsimp only
    rw [if_neg (fun hc => (lt_asymm h2) hc.2),
      if_neg (fun hc => absurd hc.2 (not_lt.mpr h3)), if_pos ⟨⟨h1, h2⟩, h3⟩]

/-- Witness for C5 (amended): the buy clause at a concrete upward
crossover (closes 10, 10, 20; windows 1 and 2). -/
theorem sma_crossover_signal_cases_witness :
    signal_for_symbol 1 2 1 ⟨1, 1000, [], 0, none⟩ 0 "ACME"
        [⟨"ACME", 1, 10, 10, 10, 10, 0, "yfinance"⟩,
         ⟨"ACME", 2, 10, 10, 10, 10, 0, "yfinance"⟩,
         ⟨"ACME", 3, 20, 20, 20, 20, 0, "yfinance"⟩] =
      .ok ⟨"ACME", .buy, 1, "Short SMA crossed above long SMA",
        confidence_from_spread 20 15, "sma_crossover", 0⟩ :=
  (sma_crossover_signal_cases 1 2 1 ⟨1, 1000, [], 0, none⟩ 0 "ACME"
      [⟨"ACME", 1, 10, 10, 10, 10, 0, "yfinance"⟩,
       ⟨"ACME", 2, 10, 10, 10, 10, 0, "yfinance"⟩,
       ⟨"ACME", 3, 20, 20, 20, 20, 0, "yfinance"⟩] 10 10 20 15
      (by norm_num [sma, closes_of, List.insertionSort, List.orderedInsert])
      (by norm_num [sma, closes_of, List.insertionSort, List.orderedInsert])
      (by norm_num [sma, closes_of, List.insertionSort, List.orderedInsert])
      (by norm_num [sma, closes_of, List.insertionSort, List.orderedInsert])).1
    (by norm_num) (by norm_num)

/-! ## Supporting lemmas on symbol grouping -/

/-- Key lookup in the grouped bars (first matching entry). -/
def lookupGroup : List (String × List PriceBar) → String → Option (List PriceBar)
  | [], _ => none
  | (k, l) :: rest, sym => if k = sym then some l else lookupGroup rest sym

/-- Effect of one grouping step on lookups. -/
theorem lookupGroup_groupInsert (sym : String) (bar : PriceBar) (k : String) :
    ∀ gs, lookupGroup (groupInsert gs sym bar) k =
      if k = sym then some ((lookupGroup gs sym).getD [] ++ [bar])
      else lookupGroup gs k := by
  intro gs
  induction gs with
  | nil =>
    by_cases hk : k = sym
    · simp_all [groupInsert, lookupGroup]
    · simp_all [groupInsert, lookupGroup, Ne.symm hk]
  | cons e rest ih =>
    obtain ⟨ke, le⟩ := e
    by_cases hke : ke = sym <;> by_cases hk : k = sym <;> by_cases hkk : ke = k <;>
      simp_all [groupInsert, lookupGroup]

/-- Each group accumulated by the `bars_by_symbol` fold holds exactly
the matching bars, in order, appended to whatever was already there;
a group exists exactly when some processed bar matches it. -/
theorem lookupGroup_fold (k : String) :
    ∀ (bars : List PriceBar) (gs : List (String × List PriceBar)),
      ((lookupGroup (List.foldl (fun g b => groupInsert g (strUpper b.symbol) b) gs bars)
          k).getD []
        = (lookupGroup gs k).getD []
          ++ bars.filter (fun b => decide (strUpper b.symbol = k))) ∧
      ((lookupGroup (List.foldl (fun g b => groupInsert g (strUpper b.symbol) b) gs bars)
          k).isSome
        = ((lookupGroup gs k).isSome ||
            bars.any (fun b => decide (strUpper b.symbol = k)))) := by
  intro bars
  induction bars with
  | nil =>
    intro gs
    simp
  | cons b rest ih =>
    intro gs
    rw [List.foldl_cons]
    obtain ⟨ih1, ih2⟩ := ih (groupInsert gs (strUpper b.symbol) b)
    rw [List.filter_cons, List.any_cons]
    by_cases hb : strUpper b.symbol = k
    · constructor
      · rw [ih1, lookupGroup_groupInsert, if_pos hb.symm, if_pos (by simp [hb])]
        rw [hb, Option.getD_some, List.append_assoc, List.singleton_append]
      · rw [ih2, lookupGroup_groupInsert, if_pos hb.symm]
        simpa using Or.inr (Or.inl hb)
    · constructor
      · rw [ih1, lookupGroup_groupInsert, if_neg (fun h => hb h.symm),
          if_neg (by simp [hb])]
      · rw [ih2, lookupGroup_groupInsert, if_neg (fun h => hb h.symm)]
        simp [hb]

/-- Grouping never duplicates a key. -/
theorem keys_groupInsert (sym : String) (bar : PriceBar) :
    ∀ gs, (groupInsert gs sym bar).map Prod.fst =
      if sym ∈ gs.map Prod.fst then gs.map Prod.fst else gs.map Prod.fst ++ [sym] := by
  intro gs
  induction gs with
  | nil => simp [groupInsert]
  | cons e rest ih =>
    obtain ⟨ke, le⟩ := e
    by_cases hke : ke = sym
    · subst hke
      simp [groupInsert]
    · rw [groupInsert, if_neg hke]
      by_cases hmem : sym ∈ rest.map Prod.fst
      · rw [List.map_cons, ih, if_pos hmem, List.map_cons,
          if_pos (by simp [hmem])]
      · rw [List.map_cons, ih, if_neg hmem, List.map_cons,
          if_neg (by simp [hmem, Ne.symm hke]), List.cons_append]

/-- The keys of the grouped bars are pairwise distinct. -/
theorem keys_nodup_fold :
    ∀ (bars : List PriceBar) (gs : List (String × List PriceBar)),
      (gs.map Prod.fst).Nodup →
      ((List.foldl (fun g b => groupInsert g (strUpper b.symbol) b) gs bars).map
        Prod.fst).Nodup := by
  intro bars
  induction bars with
  | nil =>
    intro gs h
    exact h
  | cons b rest ih =>
    intro gs h
    rw [List.foldl_cons]
    refine ih _ ?_
    rw [keys_groupInsert]
    by_cases hmem : strUpper b.symbol ∈ gs.map Prod.fst
    · rw [if_pos hmem]
      exact h
    · rw [if_neg hmem]
      simp [List.nodup_append, h, hmem]

/-- Under distinct keys, membership determines the lookup. -/
theorem lookupGroup_eq_of_mem :
    ∀ (gs : List (String × List PriceBar)) (k : String) (l : List PriceBar),
      (gs.map Prod.fst).Nodup → (k, l) ∈ gs → lookupGroup gs k = some l := by
  intro gs
  induction gs with
  | nil =>
    intro k l _ hmem
    exact absurd hmem (List.not_mem_nil _)
  | cons e rest ih =>
    intro k l hnd hmem
    obtain ⟨ke, le⟩ := e
    rw [List.map_cons] at hnd
    obtain ⟨hnotin, hnd'⟩ := List.nodup_cons.mp hnd
    rcases List.mem_cons.mp hmem with heq | hrest
    · rw [Prod.ext_iff] at heq
      obtain ⟨hk, hl⟩ := heq
      rw [lookupGroup, if_pos hk.symm]
      exact congrArg some hl.symm
    · have hne : ke ≠ k := fun hkk =>
        hnotin (hkk ▸ List.mem_map.mpr ⟨(k, l), hrest, rfl⟩)
      rw [lookupGroup, if_neg hne]
      exact ih k l hnd' hrest

/-- A successful lookup comes from an actual entry. -/
theorem mem_of_lookupGroup_eq :
    ∀ (gs : List (String × List PriceBar)) (k : String) (l : List PriceBar),
      lookupGroup gs k = some l → (k, l) ∈ gs := by
  intro gs
  induction gs with
  | nil =>
    intro k l h
    exact Option.noConfusion h
  | cons e rest ih =>
    intro k l h
    obtain ⟨ke, le⟩ := e
    rw [lookupGroup] at h
    by_cases hke : ke = k
    · rw [if_pos hke] at h
      subst hke
      obtain rfl : le = l := Option.some.injEq .. ▸ h
      exact List.mem_cons_self _ _
    · rw [if_neg hke] at h
      exact List.mem_cons_of_mem _ (ih k l h)

/-- The loop over groups produces exactly one signal per group, each
from its own group. -/
theorem signals_for_groups_correspondence (short_window long_window : Nat)
    (trade_quantity : Rat) (portfolio : PortfolioSnapshot) (created_at : Nat) :
    ∀ (groups : List (String × List PriceBar)) (sigs : List Signal),
      signals_for_groups short_window long_window trade_quantity portfolio created_at
        groups = .ok sigs →
      (∀ g ∈ groups, ∃ sig ∈ sigs,
        signal_for_symbol short_window long_window trade_quantity portfolio created_at
          g.1 g.2 = .ok sig) ∧
      (∀ sig ∈ sigs, ∃ g ∈ groups,
        signal_for_symbol short_window long_window trade_quantity portfolio created_at
          g.1 g.2 = .ok sig) := by
  intro groups
  induction groups with
  | nil =>
    intro sigs h
    obtain rfl : ([] : List Signal) = sigs := by
      simpa [signals_for_groups] using h
    exact ⟨fun g hg => absurd hg (List.not_mem_nil _),
      fun sig hs => absurd hs (List.not_mem_nil _)⟩
  | cons g rest ih =>
    intro sigs h
    rw [signals_for_groups] at h
    cases h1 : signal_for_symbol short_window long_window trade_quantity portfolio
        created_at g.1 g.2 with
    | error e =>
      rw [h1] at h
      exact Except.noConfusion h
    | ok sig =>
      rw [h1] at h
      cases h2 : signals_for_groups short_window long_window trade_quantity portfolio
          created_at rest with
      | error e =>
        rw [h2] at h
        exact Except.noConfusion h
      | ok sigs0 =>
        rw [h2] at h
        obtain rfl : sig :: sigs0 = sigs := by simpa using h
        obtain ⟨fwd, bwd⟩ := ih sigs0 h2
        constructor
        · intro g' hg'
          rcases List.mem_cons.mp hg' with rfl | hrest
          · exact ⟨sig, List.mem_cons_self _ _, h1⟩
          · obtain ⟨sig', hs', hok'⟩ := fwd g' hrest
            exact ⟨sig', List.mem_cons_of_mem _ hs', hok'⟩
        · intro sig' hs'
          rcases List.mem_cons.mp hs' with rfl | hrest
          · exact ⟨g, List.mem_cons_self _ _, h1⟩
          · obtain ⟨g', hg', hok'⟩ := bwd sig' hrest
            exact ⟨g', List.mem_cons_of_mem _ hg', hok'⟩

/-- Every signal built by the per-symbol body carries its symbol. -/
theorem signal_for_symbol_symbol_eq (short_window long_window : Nat)
    (trade_quantity : Rat) (portfolio : PortfolioSnapshot) (created_at : Nat)
    (symbol : String) (symbol_bars : List PriceBar) (sig : Signal)
    (h : signal_for_symbol short_window long_window trade_quantity portfolio created_at
      symbol symbol_bars = .ok sig) : sig.symbol = symbol := by
  unfold signal_for_symbol at h
  repeat' first
  | (exact Except.noConfusion h)
  | (cases h; rfl)
  | split at h

/-- A symbol with fewer bars than `long_window` yields the
zero-confidence hold signal citing its insufficient history. -/
theorem signal_for_symbol_insufficient (short_window long_window : Nat)
    (trade_quantity : Rat) (portfolio : PortfolioSnapshot) (created_at : Nat)
    (symbol : String) (symbol_bars : List PriceBar)
    (h : (closes_of symbol_bars).length < long_window) :
    signal_for_symbol short_window long_window trade_quantity portfolio created_at
        symbol symbol_bars =
      .ok ⟨symbol, .hold, 0,
        "Not enough history for SMA crossover (" ++
          toString (closes_of symbol_bars).length ++ "/" ++ toString long_window ++
          " bars)",
        0, "sma_crossover", created_at⟩ := by
  unfold signal_for_symbol
  rw [if_pos h]

/-- Sorting by day and projecting closes keeps one value per bar. -/
theorem closes_of_length (bars : List PriceBar) :
    (closes_of bars).length = bars.length := by
  unfold closes_of
  rw [List.length_map, List.length_insertionSort]

/-- Claim C6: for every symbol appearing in the input with fewer bars
than `long_window`, a completed `generate_signals` run outputs a hold
signal for it with quantity 0, confidence exactly 0 and a reason citing
the insufficient history; the symbol is never silently dropped, and
every signal bearing that symbol is a hold — never a buy or sell. -/
theorem generate_signals_insufficient_history_hold
    (short_window long_window : Nat) (trade_quantity : Rat)
    (prices : List PriceBar) (portfolio : PortfolioSnapshot) (created_at : Nat)
    (sigs : List Signal) (s : String)
    (hok : generate_signals short_window long_window trade_quantity prices portfolio
      created_at = .ok sigs)
    (hmem : s ∈ prices.map (fun b => strUpper b.symbol))
    (hfew : (prices.filter (fun b => decide (strUpper b.symbol = s))).length <
      long_window) :
    (∃ sig ∈ sigs, sig.symbol = s ∧ sig.action = .hold ∧ sig.quantity = 0 ∧
      sig.confidence = 0 ∧
      sig.reason = "Not enough history for SMA crossover (" ++
        toString (prices.filter (fun b => decide (strUpper b.symbol = s))).length ++
        "/" ++ toString long_window ++ " bars)") ∧
    ∀ sig ∈ sigs, sig.symbol = s → sig.action = .hold := by
  unfold generate_signals at hok
  by_cases h0 : short_window = 0 ∨ long_window = 0
  · rw [if_pos h0] at hok
    exact Except.noConfusion hok
  rw [if_neg h0] at hok
  by_cases h1 : long_window ≤ short_window
  · rw [if_pos h1] at hok
    exact Except.noConfusion hok
  rw [if_neg h1] at hok
  by_cases h2 : trade_quantity ≤ 0
  · rw [if_pos h2] at hok
    exact Except.noConfusion hok
  rw [if_neg h2] at hok
  cases hsg : signals_for_groups short_window long_window trade_quantity portfolio
      created_at (group_bars_by_symbol prices) with
  | error e =>
    rw [hsg] at hok
    exact Except.noConfusion hok
  | ok sigs0 =>
    rw [hsg] at hok
    have hsort : List.insertionSort (fun a b => strLe a.symbol b.symbol = true) sigs0 =
        sigs := by
      injection hok
    have hmemiff : ∀ sig : Signal, sig ∈ sigs ↔ sig ∈ sigs0 := by
      intro sig
      rw [← hsort]
      exact (List.perm_insertionSort _ sigs0).mem_iff
    have hgb : group_bars_by_symbol prices =
        List.foldl (fun g b => groupInsert g (strUpper b.symbol) b) [] prices := rfl
    obtain ⟨hcontent, hsome⟩ := lookupGroup_fold s prices []
    rw [← hgb] at hcontent hsome
    have hany : prices.any (fun b => decide (strUpper b.symbol = s)) = true := by
      rw [List.any_eq_true]
      obtain ⟨b, hb, hbs⟩ := List.mem_map.mp hmem
      exact ⟨b, hb, by simp [hbs]⟩
    have hisome : (lookupGroup (group_bars_by_symbol prices) s).isSome = true := by
      rw [hsome, hany]
      simp
    obtain ⟨l, hl⟩ := Option.isSome_iff_exists.mp hisome
    have hlcontent : l = prices.filter (fun b => decide (strUpper b.symbol = s)) := by
      have hc := hcontent
      rw [hl] at hc
      simpa [lookupGroup] using hc
    have hmemg : (s, l) ∈ group_bars_by_symbol prices := mem_of_lookupGroup_eq _ s l hl
    obtain ⟨fwd, bwd⟩ := signals_for_groups_correspondence short_window long_window
      trade_quantity portfolio created_at (group_bars_by_symbol prices) sigs0 hsg
    have hlen : (closes_of l).length < long_window := by
      rw [closes_of_length, hlcontent]
      exact hfew
    have hsigeval := signal_for_symbol_insufficient short_window long_window
      trade_quantity portfolio created_at s l hlen
    obtain ⟨sig, hsigmem, hsigok⟩ := fwd (s, l) hmemg
    rw [hsigeval] at hsigok
    have hsig : (⟨s, .hold, 0, "Not enough history for SMA crossover (" ++
        toString (closes_of l).length ++ "/" ++ toString long_window ++ " bars)", 0,
        "sma_crossover", created_at⟩ : Signal) = sig := by
      injection hsigok
    constructor
    · refine ⟨sig, (hmemiff sig).mpr hsigmem, ?_⟩
      rw [← hsig]
      refine ⟨rfl, rfl, rfl, rfl, ?_⟩
      rw [closes_of_length, hlcontent]
    · intro sig' hs' hsym
      obtain ⟨g, hg, hok'⟩ := bwd sig' ((hmemiff sig').mp hs')
      have hsymeq : sig'.symbol = g.1 :=
        signal_for_symbol_symbol_eq short_window long_window trade_quantity portfolio
          created_at g.1 g.2 sig' hok'
      have hg1 : g.1 = s := by
        rw [← hsymeq, hsym]
      have hnodup : ((group_bars_by_symbol prices).map Prod.fst).Nodup := by
        rw [hgb]
        exact keys_nodup_fold prices [] (by simp)
      have hlk : lookupGroup (group_bars_by_symbol prices) g.1 = some g.2 :=
        lookupGroup_eq_of_mem _ g.1 g.2 hnodup (by rw [Prod.mk.eta]; exact hg)
      rw [hg1, hl] at hlk
      have hg2 : g.2 = l := by
        injection hlk with h
        exact h.symm
      rw [hg1, hg2, hsigeval] at hok'
      have hs2 : (⟨s, .hold, 0, "Not enough history for SMA crossover (" ++
          toString (closes_of l).length ++ "/" ++ toString long_window ++ " bars)", 0,
          "sma_crossover", created_at⟩ : Signal) = sig' := by
        injection hok'
      rw [← hs2]

/-- Witness for C6: one symbol with a single bar and `long_window = 2`
yields exactly its zero-confidence insufficient-history hold signal. -/
theorem generate_signals_insufficient_history_hold_witness :
    (∃ sig ∈ [(⟨"ACME", .hold, 0, "Not enough history for SMA crossover (1/2 bars)", 0,
        "sma_crossover", 0⟩ : Signal)],
      sig.symbol = "ACME" ∧ sig.action = .hold ∧ sig.quantity = 0 ∧
      sig.confidence = 0 ∧
      sig.reason = "Not enough history for SMA crossover (1/2 bars)") ∧
    ∀ sig ∈ [(⟨"ACME", .hold, 0, "Not enough history for SMA crossover (1/2 bars)", 0,
        "sma_crossover", 0⟩ : Signal)], sig.symbol = "ACME" → sig.action = .hold :=
  generate_signals_insufficient_history_hold 1 2 1
    [⟨"ACME", 1, 10, 10, 10, 10, 0, "yfinance"⟩] ⟨1, 1000, [], 0, none⟩ 0
    [⟨"ACME", .hold, 0, "Not enough history for SMA crossover (1/2 bars)", 0,
      "sma_crossover", 0⟩] "ACME"
    (by
      norm_num [generate_signals, signals_for_groups, signal_for_symbol,
        group_bars_by_symbol, groupInsert, closes_of, List.insertionSort,
        List.orderedInsert, show strUpper "ACME" = "ACME" from by decide]
      decide)
    (by decide) (by decide)

end InvestoryX
